import Mathlib

/-
Verification of the workflow-tracking core of dalmatian (src/dalmatian/wmanager.py).

Shallow embedding of three components of WorkspaceManager:
  - get_entity_status (status aggregation, wmanager.py lines 443-477),
  - patch_attributes, sample branch (attribute reconciliation, lines 497-556),
  - get_stats (execution statistics, lines 673-764).

Timestamps are modelled as integers (seconds); `iso8601.parse_date` composed
with `datetime.timestamp` is order-preserving, so submission dates and
attempt start/end times appear directly as their numeric values.
Durations in hours are rationals. Remote calls appear as data: each
submission carries the outcome of its detail fetch as an Except value, and
each incomplete sample carries the outcome of its metadata fetch.

The functions workflow_time, convert_time and get_vm_cost are referenced by
wmanager.py but defined in another file of the repository that is not part
of the sources here; they are modelled from the spec where noted.
-/

set_option maxHeartbeats 1000000

namespace Dalmatian

/-- Generic association-list lookup with propositional key equality; models
Python dict membership and indexing. -/
def alookup {κ β : Type} [DecidableEq κ] (e : κ) : List (κ × β) → Option β
  | [] => none
  | (k, v) :: t => if k = e then some v else alookup e t

/-- Generic association-list insert-or-replace; models Python dict assignment
d[k] = v, which keeps the position of an existing key and appends a new one. -/
def aset {κ β : Type} [DecidableEq κ] : List (κ × β) → κ → β → List (κ × β)
  | [], k, v => [(k, v)]
  | (k0, v0) :: t, k, v => if k0 = k then (k, v) :: t else (k0, v0) :: aset t k v

/-- Last dot-separated component of a name; models s.split(".")[-1] and
s.rsplit(".")[-1] used for task and output names. -/
def lastComponent (s : String) : String := (s.splitOn ".").getLastD s

--------------------------------------------------------------------------
-- Status Aggregator: get_entity_status (wmanager.py lines 443-477)
--------------------------------------------------------------------------

/-- One workflow entry of a submission detail: workflowEntity.entityName,
status, and the optional workflowId. -/
structure WorkflowRec where
  entityName : String
  status : String
  workflowId : Option String
deriving DecidableEq

/-- One submission as seen by get_entity_status: the fields read from the
submission list entry, plus the outcome of the get_submission detail fetch
(wmanager.py lines 403-407: a non-200 response raises, modelled as error). -/
structure SubmissionRec where
  submissionId : String
  entityType : String
  submissionDate : Int
  methodConfigurationName : String
  detail : Except Unit (List WorkflowRec)

/-- The per-entity record built by get_entity_status (lines 463-472). -/
structure EntityRecord where
  status : String
  timestamp : Int
  submission_id : String
  configuration : String
  workflow_id : String
deriving DecidableEq

/-- Record built for entity_dict at lines 463-472; workflow_id defaults to
NA when the workflow carries no workflowId. -/
def recordFor (s : SubmissionRec) (w : WorkflowRec) : EntityRecord :=
  { status := w.status
    timestamp := s.submissionDate
    submission_id := s.submissionId
    configuration := s.methodConfigurationName
    workflow_id := w.workflowId.getD "NA" }

/-- The per-workflow update of entity_dict (line 462): insert when the
entity is absent, replace only when the stored timestamp is strictly
smaller than the new submission timestamp. -/
def insertWorkflow (s : SubmissionRec) (d : List (String × EntityRecord)) (w : WorkflowRec) :
    List (String × EntityRecord) :=
  match alookup w.entityName d with
  | none => aset d w.entityName (recordFor s w)
  | some r =>
    if r.timestamp < s.submissionDate then aset d w.entityName (recordFor s w) else d

/-- One iteration of the submission loop (lines 451-472): skip submissions
of the wrong entity type, abort when the detail fetch failed, otherwise
fold every workflow of the detail into the dictionary. -/
def processSubmission (etype : String) (d : List (String × EntityRecord)) (s : SubmissionRec) :
    Except Unit (List (String × EntityRecord)) :=
  if s.entityType ≠ etype then Except.ok d
  else
    match s.detail with
    | Except.error e => Except.error e
    | Except.ok ws => Except.ok (ws.foldl (insertWorkflow s) d)

/-- The submission loop of get_entity_status; a failed detail fetch for a
type-matching submission propagates and no dictionary is produced. -/
def statusFold (etype : String) (d : List (String × EntityRecord)) :
    List SubmissionRec → Except Unit (List (String × EntityRecord))
  | [] => Except.ok d
  | s :: rest =>
    match processSubmission etype d s with
    | Except.ok d1 => statusFold etype d1 rest
    | Except.error e => Except.error e

/-- get_entity_status (lines 443-477) applied to the config-filtered
submission list: reduce all submissions to one record per entity id. -/
def get_entity_status (etype : String) (submissions : List SubmissionRec) :
    Except Unit (List (String × EntityRecord)) :=
  statusFold etype [] submissions

/-- Whether a submission references entity e: its detail fetch succeeded and
some workflow of the detail targets e. -/
def referencesEntity (s : SubmissionRec) (e : String) : Bool :=
  match s.detail with
  | Except.ok ws => ws.any (fun w => w.entityName == e)
  | Except.error _ => false

/-- Whether a submission matches the requested entity type (line 453). -/
def matchesB (etype : String) (s : SubmissionRec) : Bool := s.entityType == etype

/-- Submission timestamps of the type-matching submissions referencing e,
in list order. -/
def refTimestamps (etype e : String) : List SubmissionRec → List Int
  | [] => []
  | s :: rest =>
    if matchesB etype s && referencesEntity s e then
      s.submissionDate :: refTimestamps etype e rest
    else refTimestamps etype e rest

/-- Combine a stored optional timestamp with a new one the way line 462
does: absent means take the new one, present means keep the larger. -/
def newTs : Option Int → Int → Int
  | none, ts => ts
  | some t, ts => max t ts

/-- Timestamp stored for entity e in the dictionary, if any. -/
def tsOf (d : List (String × EntityRecord)) (e : String) : Option Int :=
  (alookup e d).map EntityRecord.timestamp

/-- Specification-level accumulator for the timestamp stored for e after a
list of submissions has been scanned, starting from seed o. -/
def accTs (etype e : String) : Option Int → List SubmissionRec → Option Int
  | o, [] => o
  | o, s :: rest =>
    accTs etype e
      (if matchesB etype s && referencesEntity s e then some (newTs o s.submissionDate) else o)
      rest

--------------------------------------------------------------------------
-- Execution Statistics Engine: get_stats (wmanager.py lines 673-764)
--------------------------------------------------------------------------

/-- One execution event of a call attempt: description with start and end
times in seconds. -/
structure ExecEvent where
  description : String
  startTime : Int
  endTime : Int
deriving DecidableEq

/-- One call attempt from the workflow metadata tree.  callCachingHit models
the Python condition hit-key-present-and-true; machineType holds the raw
jes.machineType string; jobId the remote job identifier. -/
structure CallAttempt where
  shardIndex : Option Int
  startTime : Int
  endTime : Int
  executionEvents : List ExecEvent
  callCachingHit : Bool
  preemptible : Bool
  machineType : String
  jobId : String
deriving DecidableEq

/-- Modelled from the spec: workflow_time is defined in a repository file
outside the given sources; per the spec it is the wall-clock duration of an
attempt, here in seconds. -/
def workflow_time (a : CallAttempt) : Int := a.endTime - a.startTime

/-- Wall-clock duration of an attempt in hours (workflow_time(j)/3600). -/
def durH (a : CallAttempt) : ℚ := (workflow_time a : ℚ) / 3600

/-- Execution events of an attempt labeled exactly "waiting for quota"
(line 735). -/
def quotaEvents (a : CallAttempt) : List ExecEvent :=
  a.executionEvents.filter (fun e => e.description == "waiting for quota")

/-- Total quota-wait time of an attempt in hours (lines 735-736).  The
event timestamps stand for the values of convert_time, which is defined
outside the given sources and modelled from the spec as seconds. -/
def quotaH (a : CallAttempt) : ℚ :=
  ((quotaEvents a).map (fun e => ((e.endTime - e.startTime : Int) : ℚ) / 3600)).sum

/-- One step of the scatter loop (lines 722-726): an attempt whose shard
index is already recorded is appended to the preemption list, and the
successes entry for that index is then overwritten with this attempt. -/
def shardStep (acc : List (Int × CallAttempt) × List CallAttempt) (j : CallAttempt) :
    List (Int × CallAttempt) × List CallAttempt :=
  ((aset acc.1 (j.shardIndex.getD 0) j),
   if (alookup (j.shardIndex.getD 0) acc.1).isSome then acc.2 ++ [j] else acc.2)

/-- Shard resolution (lines 717-730).  When the first attempt carries a
shard index the scatter loop runs; otherwise successes is the single entry
0 mapped to the last attempt and all earlier attempts are preemptions.  In
the scatter branch a missing shard index on a later attempt would raise a
KeyError in Python; the model reads it as index 0, and every theorem about
scattered tasks assumes all attempts carry an index. -/
def resolveAttempts : List CallAttempt → List (Int × CallAttempt) × List CallAttempt
  | [] => ([], [])
  | a :: rest =>
    if (a.shardIndex).isSome then (a :: rest).foldl shardStep ([], [])
    else ([(0, rest.getLastD a)], (a :: rest).dropLast)

/-- The preemption rule in the words of the spec, used to characterise the
scatter loop: walking the attempts in order, an attempt whose shard index
has already been seen on an earlier attempt is a preemption; every attempt
then records its index as seen. -/
def preemptList (seen : List Int) : List CallAttempt → List CallAttempt
  | [] => []
  | a :: t =>
    (if a.shardIndex.getD 0 ∈ seen then [a] else [])
      ++ preemptList (a.shardIndex.getD 0 :: seen) t

/-- Whether any attempt of the task hit the call cache (line 742). -/
def cacheHit (attempts : List CallAttempt) : Bool :=
  attempts.any (fun a => a.callCachingHit)

/-- time_h (lines 732-737): accepted-attempt durations in hours minus the
quota-wait hours of the accepted attempts. -/
def time_h (attempts : List CallAttempt) : ℚ :=
  (((resolveAttempts attempts).1).map (fun p => durH p.2)).sum
    - (((resolveAttempts attempts).1).map (fun p => quotaH p.2)).sum

/-- total_time_h (lines 739-740): all-attempt durations in hours minus the
same quota-wait total. -/
def total_time_h (attempts : List CallAttempt) : ℚ :=
  ((attempts.map durH).sum)
    - (((resolveAttempts attempts).1).map (fun p => quotaH p.2)).sum

/-- Maximum of a nonempty rational list, none on the empty list; models
np.max over the preemption durations. -/
def listMax : List ℚ → Option ℚ
  | [] => none
  | x :: xs => some (xs.foldl max x)

/-- Last slash-separated component; models machineType.rsplit("/")[-1]
at line 751. -/
def machineShort (s : String) : String := (s.splitOn "/").getLastD s

/-- Per-task statistics row.  Fields left unset by the cache-hit guard
(lines 742-756) are options; start_time, a timezone-formatted string of the
first attempt start, is not modelled (no claim mentions it). -/
structure TaskStats where
  time_h : ℚ
  total_time_h : ℚ
  max_preempt_time_h : Option ℚ
  machine_type : Option String
  attemptCount : Option Nat
  est_cost : Option ℚ
  job_ids : Option (List String)
deriving DecidableEq

/-- The row produced when some attempt hit the call cache: only the two
time columns are filled (lines 732-742). -/
def cachedStats (attempts : List CallAttempt) : TaskStats :=
  { time_h := time_h attempts
    total_time_h := total_time_h attempts
    max_preempt_time_h := none
    machine_type := none
    attemptCount := none
    est_cost := none
    job_ids := none }

/-- The row produced for a task with no call-cache hit (lines 742-756).
rate models get_vm_cost, the external pricing table: hourly cost from
machine type and preemptible flag.  a0 is the first attempt. -/
def fullStats (rate : String → Bool → ℚ) (attempts : List CallAttempt) (a0 : CallAttempt) :
    TaskStats :=
  { time_h := time_h attempts
    total_time_h := total_time_h attempts
    max_preempt_time_h :=
      if ((resolveAttempts attempts).2).isEmpty then none
      else (listMax (((resolveAttempts attempts).2).map (fun a => (workflow_time a : ℚ)))).map
        (fun x => x / 3600)
    machine_type := some (machineShort (attempts.getLastD a0).machineType)
    attemptCount := some attempts.length
    est_cost := some ((attempts.map
      (fun j => rate (machineShort j.machineType) j.preemptible * durH j)).sum)
    job_ids := some (((resolveAttempts attempts).1).map (fun p => p.2.jobId)) }

/-- Per-task, per-entity statistics computation (lines 716-756).  An empty
attempt list raises an IndexError at line 720 in Python; a preempted,
uncached task whose first attempt is not preemptible fails the assertion at
line 745.  Both surface as error. -/
def taskStats (rate : String → Bool → ℚ) : List CallAttempt → Except Unit TaskStats
  | [] => Except.error ()
  | a0 :: rest =>
    if cacheHit (a0 :: rest) then Except.ok (cachedStats (a0 :: rest))
    else if ((resolveAttempts (a0 :: rest)).2).isEmpty || a0.preemptible then
      Except.ok (fullStats rate (a0 :: rest) a0)
    else Except.error ()

/-- Core count parsed from a machine-type name (line 761): unset machine
type (as left by the cache-hit guard) and small or micro classes count as
one core, otherwise the trailing numeric suffix.  Python raises on an
unparsable suffix; the model reads it as 0, a case no theorem relies on. -/
def coreCount : Option String → ℚ
  | none => 1
  | some mt =>
    if (mt.splitOn "-small").length != 1 || (mt.splitOn "-micro").length != 1 then 1
    else (((mt.splitOn "-").getLastD mt).toNat?.getD 0 : ℚ)

/-- Workflow-level est_cost roll-up over the task rows of one entity
(line 759); pandas sum skips the unset entries. -/
def est_cost_agg (stats : List TaskStats) : ℚ :=
  (stats.map (fun s => s.est_cost.getD 0)).sum

/-- Workflow-level cpu_hours roll-up over the task rows of one entity
(line 761): total_time_h of every task row, cache hit or not, times the
core count of its machine-type column. -/
def cpu_hours_agg (stats : List TaskStats) : ℚ :=
  (stats.map (fun s => s.total_time_h * coreCount s.machine_type)).sum

/-- metadata.json() as evaluated at line 686, applied to the value that
get_workflow_metadata already returned: line 400 returns response.json(),
a parsed dict, and a Python dict has no json attribute, so this attribute
access raises AttributeError whatever the metadata value is. -/
def dictJson {α : Type} (_m : α) : Except Unit α := Except.error ()

/-- The while-fetch retry loop of get_stats (lines 682-689), fuel-indexed
so that the unbounded while loop is a total function and termination
statements quantify over fuel.  Each iteration calls get_workflow_metadata
(outcome results n, none when the remote call raises), then, on a
successful fetch, evaluates metadata.json() at line 686, whose success
would store the value and clear the loop flag (line 687); the bare except
swallows any exception and the loop retries with the next call. -/
def retryLoopFrom {α : Type} (results : Nat → Option α) : Nat → Nat → Option α
  | _, 0 => none
  | start, fuel + 1 =>
    match results start with
    | some m =>
      match dictJson m with
      | Except.ok v => some v
      | Except.error _ => retryLoopFrom results (start + 1) fuel
    | none => retryLoopFrom results (start + 1) fuel

--------------------------------------------------------------------------
-- Attribute Reconciler: patch_attributes, sample branch (lines 497-556)
--------------------------------------------------------------------------

/-- The slice of one call attempt read by patch_attributes: its optional
outputs mapping (task-local output name to value). -/
structure CallOutputs where
  outputs : Option (List (String × String))
deriving DecidableEq

/-- The slice of workflow metadata read by patch_attributes: the top-level
outputs mapping (empty list models absent-or-empty, the only distinction
line 537 makes) and the calls table. -/
structure WorkflowMeta where
  outputs : List (String × String)
  calls : List (String × List CallOutputs)
deriving DecidableEq

/-- One attribute write issued by update_sample_attributes. -/
structure WriteOp where
  entityId : String
  attrs : List (String × String)
deriving DecidableEq

/-- One step of the task walk (lines 541-550): if the final attempt of the
task has an outputs mapping whose keys are all known expected-output keys
and some mapped attribute of the entity is null, record a write (unless in
dry-run mode) and count the task. -/
def patchCallStep (outputMap : List (String × String)) (dryRun : Bool)
    (row : String → Option String) (sampleId : String)
    (acc : List WriteOp × List String) (c : String × List CallOutputs) :
    List WriteOp × List String :=
  match (c.2).getLast? with
  | none => acc
  | some last =>
    match last.outputs with
    | none => acc
    | some outs =>
      if outs.all (fun p => (alookup p.1 outputMap).isSome) then
        if outs.any (fun p => (row ((alookup p.1 outputMap).getD "")).isNone) then
          ((if dryRun then acc.1
            else acc.1 ++ [⟨sampleId, outs.map (fun p => ((alookup p.1 outputMap).getD "", p.2))⟩]),
           acc.2 ++ [lastComponent c.1])
        else acc
      else acc

/-- Per-entity body of the patch loop (lines 537-550): when the workflow
has nonempty top-level outputs and the run is not a dry run, write them
all; otherwise walk the tasks. -/
def patchEntity (outputMap : List (String × String)) (dryRun : Bool)
    (row : String → Option String) (sampleId : String) (m : WorkflowMeta) :
    List WriteOp × List String :=
  if m.outputs ≠ [] ∧ dryRun = false then
    ([⟨sampleId, m.outputs.map
        (fun p => ((alookup (lastComponent p.1) outputMap).getD "", p.2))⟩], [])
  else
    m.calls.foldl (patchCallStep outputMap dryRun row sampleId) ([], [])

/-- The patch loop over incomplete entities in the failure-free case:
collect the writes issued and the per-task count increments in order.
state maps an entity id to its attribute row. -/
def patchRun (outputMap : List (String × String)) (dryRun : Bool)
    (state : String → String → Option String) :
    List (String × WorkflowMeta) → List WriteOp × List String
  | [] => ([], [])
  | e :: rest =>
    let r := patchEntity outputMap dryRun (state e.1) e.1 e.2
    let acc := patchRun outputMap dryRun state rest
    (r.1 ++ acc.1, r.2 ++ acc.2)

/-- One incomplete entity together with the outcome of its metadata fetch
(line 536; error models a raised exception). -/
structure SampleTask where
  sampleId : String
  fetch : Except Unit WorkflowMeta

/-- The patch loop with the failure path (lines 535-553).  When the fetch
for an entity raises, control reaches the bare except handler, which prints
and then evaluates metadata.json(); metadata is either unbound (first
iteration) or a dict returned by get_workflow_metadata (line 400), so that
expression raises NameError or AttributeError inside the handler and the
whole batch aborts.  The error case models that abort. -/
def patchFetchLoop (outputMap : List (String × String)) (dryRun : Bool)
    (state : String → String → Option String) :
    List WriteOp × List String → List SampleTask →
      Except Unit (List WriteOp × List String)
  | acc, [] => Except.ok acc
  | acc, e :: rest =>
    match e.fetch with
    | Except.ok m =>
      patchFetchLoop outputMap dryRun state
        (acc.1 ++ (patchEntity outputMap dryRun (state e.sampleId) e.sampleId m).1,
         acc.2 ++ (patchEntity outputMap dryRun (state e.sampleId) e.sampleId m).2) rest
    | Except.error _ => Except.error ()

/-- Apply one recorded attribute write to an entity-table state. -/
def applyWrite (state : String → String → Option String) (w : WriteOp) :
    String → String → Option String :=
  fun eid attr =>
    if eid = w.entityId then
      match alookup attr w.attrs with
      | some v => some v
      | none => state eid attr
    else state eid attr

/-- Apply a list of recorded writes in order. -/
def applyWrites (state : String → String → Option String) (ws : List WriteOp) :
    String → String → Option String :=
  ws.foldl applyWrite state

--------------------------------------------------------------------------
-- Concrete inputs used by counterexamples and witnesses
--------------------------------------------------------------------------

/-- A constant pricing table used where a concrete rate is needed. -/
def rate0 : String → Bool → ℚ := fun _ _ => 1

/-- Scattered task, shard index 0, attempt at position p1: one hour. -/
def catt1 : CallAttempt :=
  { shardIndex := some 0, startTime := 0, endTime := 3600, executionEvents := [],
    callCachingHit := false, preemptible := true, machineType := "n1-standard-8",
    jobId := "job1" }

/-- Same shard index, attempt at position p2: two hours. -/
def catt2 : CallAttempt :=
  { shardIndex := some 0, startTime := 4000, endTime := 11200, executionEvents := [],
    callCachingHit := false, preemptible := true, machineType := "n1-standard-8",
    jobId := "job2" }

/-- Same shard index, attempt at position p3: three hours. -/
def catt3 : CallAttempt :=
  { shardIndex := some 0, startTime := 12000, endTime := 22800, executionEvents := [],
    callCachingHit := false, preemptible := true, machineType := "n1-standard-8",
    jobId := "job3" }

/-- A one-hour attempt that hit the call cache. -/
def attHit : CallAttempt :=
  { shardIndex := none, startTime := 0, endTime := 3600, executionEvents := [],
    callCachingHit := true, preemptible := false, machineType := "n1-standard-8",
    jobId := "jobH" }

/-- The task row produced for the single cache-hit attempt attHit. -/
def hitStats : TaskStats :=
  { time_h := 1, total_time_h := 1, max_preempt_time_h := none, machine_type := none,
    attemptCount := none, est_cost := none, job_ids := none }

/-- A two-hour attempt with one half-hour quota-wait event. -/
def attQ : CallAttempt :=
  { shardIndex := none, startTime := 0, endTime := 7200,
    executionEvents := [{ description := "waiting for quota", startTime := 0, endTime := 1800 }],
    callCachingHit := false, preemptible := false, machineType := "n1-standard-8",
    jobId := "jobQ" }

/-- First attempt of a preempted task whose preemptible flag is false. -/
def pAtt0 : CallAttempt :=
  { shardIndex := some 0, startTime := 0, endTime := 3600, executionEvents := [],
    callCachingHit := false, preemptible := false, machineType := "n1-standard-8",
    jobId := "jobP0" }

/-- Retry of pAtt0 on the same shard index. -/
def pAtt1 : CallAttempt :=
  { shardIndex := some 0, startTime := 4000, endTime := 7600, executionEvents := [],
    callCachingHit := false, preemptible := false, machineType := "n1-standard-8",
    jobId := "jobP1" }

/-- Submission for entity E, timestamp 5, status Failed. -/
def subC3a : SubmissionRec :=
  { submissionId := "sA", entityType := "sample", submissionDate := 5,
    methodConfigurationName := "cfg",
    detail := Except.ok [{ entityName := "E", status := "Failed", workflowId := some "wA" }] }

/-- Submission for entity E, timestamp 9, status Succeeded. -/
def subC3b : SubmissionRec :=
  { submissionId := "sB", entityType := "sample", submissionDate := 9,
    methodConfigurationName := "cfg",
    detail := Except.ok [{ entityName := "E", status := "Succeeded", workflowId := some "wB" }] }

/-- The dictionary get_entity_status produces for [subC3a, subC3b]. -/
def dictC3 : List (String × EntityRecord) :=
  [("E", { status := "Succeeded", timestamp := 9, submission_id := "sB",
           configuration := "cfg", workflow_id := "wB" })]

/-- Submission for entity E, timestamp 7, processed first. -/
def subC5a : SubmissionRec :=
  { submissionId := "sub1", entityType := "sample", submissionDate := 7,
    methodConfigurationName := "cfg",
    detail := Except.ok [{ entityName := "E", status := "Failed", workflowId := some "w1" }] }

/-- Submission for entity E, equal timestamp 7, processed last. -/
def subC5b : SubmissionRec :=
  { submissionId := "sub2", entityType := "sample", submissionDate := 7,
    methodConfigurationName := "cfg",
    detail := Except.ok [{ entityName := "E", status := "Succeeded", workflowId := some "w2" }] }

/-- A type-matching submission whose detail fetch failed. -/
def subC8bad : SubmissionRec :=
  { submissionId := "sBad", entityType := "sample", submissionDate := 3,
    methodConfigurationName := "cfg", detail := Except.error () }

/-- Retry-outcome sequence whose third call succeeds. -/
def results0 : Nat → Option Nat := fun n => if n = 2 then some 37 else none

/-- Expected-output mapping used by the patch examples. -/
def outputMap0 : List (String × String) := [("out1", "attr1")]

/-- Workflow metadata whose single task produced output out1. -/
def metaOk : WorkflowMeta :=
  { outputs := [], calls := [("wf.TaskA", [{ outputs := some [("out1", "v")] }])] }

/-- Entity-table state in which every attribute is null. -/
def state0 : String → String → Option String := fun _ _ => none

/-- Incomplete entity whose metadata fetch succeeds. -/
def taskS1 : SampleTask := { sampleId := "s1", fetch := Except.ok metaOk }

/-- Incomplete entity whose metadata fetch raises. -/
def taskS2 : SampleTask := { sampleId := "s2", fetch := Except.error () }

/-- Incomplete entity after the failing one, metadata fetch succeeds. -/
def taskS3 : SampleTask := { sampleId := "s3", fetch := Except.ok metaOk }

/-- The workflow of subC5a. -/
def wC5a : WorkflowRec := { entityName := "E", status := "Failed", workflowId := some "w1" }

/-- The workflow of subC5b. -/
def wC5b : WorkflowRec := { entityName := "E", status := "Succeeded", workflowId := some "w2" }

/-- The record get_entity_status keeps for entity E from [subC5a, subC5b]. -/
def recC5 : EntityRecord :=
  { status := "Failed", timestamp := 7, submission_id := "sub1",
    configuration := "cfg", workflow_id := "w1" }

--------------------------------------------------------------------------
-- Association-list lemmas
--------------------------------------------------------------------------

theorem alookup_aset {κ β : Type} [DecidableEq κ] (d : List (κ × β)) (k e : κ) (v : β) :
    alookup e (aset d k v) = if k = e then some v else alookup e d := by
  induction d with
  | nil => by_cases h : k = e <;> simp [aset, alookup, h]
  | cons p t ih =>
    obtain ⟨k0, v0⟩ := p
    by_cases h0 : k0 = k
    · subst h0
      by_cases h1 : k0 = e <;> simp [aset, alookup, h1]
    · by_cases h1 : k0 = e
      · subst h1
        have hk : ¬ k = k0 := fun h => h0 h.symm
        simp [aset, h0, alookup, hk]
      · simp [aset, h0, alookup, h1, ih]

theorem mem_keys_aset {κ β : Type} [DecidableEq κ] (d : List (κ × β)) (k : κ) (v : β) (x : κ)
    (h : x ∈ (aset d k v).map Prod.fst) : x ∈ d.map Prod.fst ∨ x = k := by
  induction d with
  | nil =>
    simp [aset] at h
    exact Or.inr h
  | cons p t ih =>
    obtain ⟨k0, v0⟩ := p
    by_cases h0 : k0 = k
    · subst h0
      simp only [aset, if_pos rfl] at h
      rcases List.mem_cons.mp h with h | h
      · exact Or.inl (List.mem_cons.mpr (Or.inl h))
      · exact Or.inl (List.mem_cons.mpr (Or.inr h))
    · simp only [aset, if_neg h0] at h
      rcases List.mem_cons.mp h with h | h
      · exact Or.inl (List.mem_cons.mpr (Or.inl h))
      · rcases ih h with hm | he
        · exact Or.inl (List.mem_cons.mpr (Or.inr hm))
        · exact Or.inr he

theorem nodup_keys_aset {κ β : Type} [DecidableEq κ] (d : List (κ × β)) (k : κ) (v : β)
    (h : (d.map Prod.fst).Nodup) : ((aset d k v).map Prod.fst).Nodup := by
  induction d with
  | nil => simp [aset]
  | cons p t ih =>
    obtain ⟨k0, v0⟩ := p
    simp only [List.map_cons, List.nodup_cons] at h
    by_cases h0 : k0 = k
    · subst h0
      simpa [aset] using h
    · simp only [aset, if_neg h0, List.map_cons, List.nodup_cons]
      constructor
      · intro hc
        rcases mem_keys_aset t k v k0 hc with hm | he
        · exact h.1 hm
        · exact h0 he
      · exact ih h.2

theorem alookup_isSome_iff {κ β : Type} [DecidableEq κ] (d : List (κ × β)) (k : κ) :
    (alookup k d).isSome ↔ k ∈ d.map Prod.fst := by
  induction d with
  | nil => simp [alookup]
  | cons p t ih =>
    obtain ⟨k0, v0⟩ := p
    by_cases h : k0 = k
    · subst h
      simp [alookup]
    · simp only [alookup, if_neg h, List.map_cons, List.mem_cons, ih]
      constructor
      · exact Or.inr
      · rintro (rfl | hm)
        · exact absurd rfl h
        · exact hm

theorem mem_keys_aset_of {κ β : Type} [DecidableEq κ] (d : List (κ × β)) (k x : κ) (v : β)
    (h : x ∈ d.map Prod.fst ∨ x = k) : x ∈ (aset d k v).map Prod.fst := by
  induction d with
  | nil =>
    rcases h with h | h
    · simp at h
    · simp [aset, h]
  | cons p t ih =>
    obtain ⟨k0, v0⟩ := p
    by_cases h0 : k0 = k
    · subst h0
      simp only [aset, if_pos rfl]
      rcases h with h | h
      · rcases List.mem_cons.mp h with h | h
        · exact List.mem_cons.mpr (Or.inl h)
        · exact List.mem_cons.mpr (Or.inr h)
      · exact List.mem_cons.mpr (Or.inl h)
    · simp only [aset, if_neg h0]
      rcases h with h | h
      · rcases List.mem_cons.mp h with h | h
        · exact List.mem_cons.mpr (Or.inl h)
        · exact List.mem_cons.mpr (Or.inr (ih (Or.inl h)))
      · exact List.mem_cons.mpr (Or.inr (ih (Or.inr h)))

--------------------------------------------------------------------------
-- Lemmas about get_entity_status
--------------------------------------------------------------------------

theorem le_newTs (o : Option Int) (ts : Int) : ts ≤ newTs o ts := by
  cases o with
  | none => simp [newTs]
  | some t => simp [newTs]

theorem newTs_newTs (o : Option Int) (ts : Int) :
    newTs (some (newTs o ts)) ts = newTs o ts := by
  show max (newTs o ts) ts = newTs o ts
  exact max_eq_left (le_newTs o ts)

theorem tsOf_insertWorkflow (s : SubmissionRec) (d : List (String × EntityRecord))
    (w : WorkflowRec) (e : String) :
    tsOf (insertWorkflow s d w) e =
      if w.entityName = e then some (newTs (tsOf d e) s.submissionDate) else tsOf d e := by
  cases hl : alookup w.entityName d with
  | none =>
    by_cases he : w.entityName = e
    · subst he
      simp [insertWorkflow, hl, tsOf, alookup_aset, recordFor, newTs]
    · simp [insertWorkflow, hl, tsOf, alookup_aset, he]
  | some r =>
    by_cases hlt : r.timestamp < s.submissionDate
    · by_cases he : w.entityName = e
      · subst he
        simp [insertWorkflow, hl, if_pos hlt, tsOf, alookup_aset, recordFor, newTs,
          max_eq_right (le_of_lt hlt)]
      · simp [insertWorkflow, hl, if_pos hlt, tsOf, alookup_aset, he]
    · by_cases he : w.entityName = e
      · subst he
        simp [insertWorkflow, hl, if_neg hlt, tsOf, newTs, max_eq_left (not_lt.mp hlt)]
      · simp [insertWorkflow, hl, if_neg hlt, he]

theorem tsOf_foldl_insert (s : SubmissionRec) (ws : List WorkflowRec) :
    ∀ (d : List (String × EntityRecord)) (e : String),
    tsOf (ws.foldl (insertWorkflow s) d) e =
      if ws.any (fun w => w.entityName == e) then some (newTs (tsOf d e) s.submissionDate)
      else tsOf d e := by
  induction ws with
  | nil => intro d e; simp
  | cons w ws ih =>
    intro d e
    simp only [List.foldl_cons, List.any_cons]
    rw [ih (insertWorkflow s d w) e, tsOf_insertWorkflow]
    by_cases hw : w.entityName = e
    · by_cases ha : ws.any (fun w => w.entityName == e) = true <;>
        simp [hw, ha, newTs_newTs]
    · have hb : (w.entityName == e) = false := by simpa using hw
      simp [hw, hb]

theorem tsOf_processSubmission (etype : String) (d d1 : List (String × EntityRecord))
    (s : SubmissionRec) (e : String)
    (h : processSubmission etype d s = Except.ok d1) :
    tsOf d1 e =
      if matchesB etype s && referencesEntity s e then
        some (newTs (tsOf d e) s.submissionDate)
      else tsOf d e := by
  by_cases ht : s.entityType = etype
  · rw [processSubmission, if_neg (by simp [ht])] at h
    cases hd : s.detail with
    | error err => rw [hd] at h; cases h
    | ok ws =>
      rw [hd] at h
      cases h
      rw [tsOf_foldl_insert]
      simp [matchesB, referencesEntity, hd, ht]
  · rw [processSubmission, if_pos ht] at h
    cases h
    have : matchesB etype s = false := by simpa [matchesB] using ht
    simp [this]

theorem tsOf_statusFold (etype : String) (subs : List SubmissionRec) :
    ∀ (d d1 : List (String × EntityRecord)) (e : String),
      statusFold etype d subs = Except.ok d1 →
      tsOf d1 e = accTs etype e (tsOf d e) subs := by
  induction subs with
  | nil =>
    intro d d1 e h
    cases h
    simp [accTs]
  | cons s rest ih =>
    intro d d1 e h
    rw [statusFold] at h
    cases hp : processSubmission etype d s with
    | error err => rw [hp] at h; cases h
    | ok dmid =>
      rw [hp] at h
      rw [ih dmid d1 e h, accTs, tsOf_processSubmission etype d dmid s e hp]

theorem accTs_isSome_seed (etype e : String) (subs : List SubmissionRec) :
    ∀ (o : Option Int), o.isSome → (accTs etype e o subs).isSome := by
  induction subs with
  | nil => intro o h; simpa [accTs] using h
  | cons s rest ih =>
    intro o h
    rw [accTs]
    apply ih
    by_cases hc : (matchesB etype s && referencesEntity s e) = true <;> simp [hc, h]

theorem accTs_isSome (etype e : String) (subs : List SubmissionRec) :
    ∀ (o : Option Int),
    (∃ s ∈ subs, (matchesB etype s && referencesEntity s e) = true) →
    (accTs etype e o subs).isSome := by
  induction subs with
  | nil => intro o h; simp at h
  | cons s rest ih =>
    intro o h
    rw [accTs]
    by_cases hc : (matchesB etype s && referencesEntity s e) = true
    · rw [if_pos hc]
      exact accTs_isSome_seed etype e rest _ (by simp)
    · rw [if_neg hc]
      apply ih
      rcases h with ⟨s0, hmem, hcond⟩
      rcases List.mem_cons.mp hmem with rfl | hmem'
      · exact absurd hcond hc
      · exact ⟨s0, hmem', hcond⟩

theorem accTs_mono (etype e : String) (subs : List SubmissionRec) :
    ∀ (x m : Int), accTs etype e (some x) subs = some m → x ≤ m := by
  induction subs with
  | nil =>
    intro x m h
    simp [accTs] at h
    omega
  | cons s rest ih =>
    intro x m h
    rw [accTs] at h
    by_cases hc : (matchesB etype s && referencesEntity s e) = true
    · rw [if_pos hc] at h
      have hstep := ih (newTs (some x) s.submissionDate) m (by simpa [newTs] using h)
      exact le_trans (le_max_left x s.submissionDate) hstep
    · rw [if_neg hc] at h
      exact ih x m h

theorem accTs_spec (etype e : String) (subs : List SubmissionRec) :
    ∀ (o : Option Int) (m : Int), accTs etype e o subs = some m →
      (∀ t ∈ refTimestamps etype e subs, t ≤ m) ∧
      (m ∈ refTimestamps etype e subs ∨ o = some m) := by
  induction subs with
  | nil =>
    intro o m h
    simp [accTs] at h
    simp [refTimestamps, h]
  | cons s rest ih =>
    intro o m h
    rw [accTs] at h
    by_cases hc : (matchesB etype s && referencesEntity s e) = true
    · rw [if_pos hc] at h
      have hspec := ih _ m h
      have hmono : newTs o s.submissionDate ≤ m := accTs_mono etype e rest _ m h
      have hts : s.submissionDate ≤ m := le_trans (le_newTs o _) hmono
      rw [refTimestamps, if_pos hc]
      constructor
      · intro t htm
        rcases List.mem_cons.mp htm with rfl | htm'
        · exact hts
        · exact hspec.1 t htm'
      · rcases hspec.2 with hmem | heq
        · exact Or.inl (List.mem_cons_of_mem _ hmem)
        · have hval : newTs o s.submissionDate = m := by
            injection heq
          cases o with
          | none =>
            left
            have : s.submissionDate = m := by simpa [newTs] using hval
            rw [← this]
            exact List.mem_cons_self _ _
          | some t0 =>
            rcases max_choice t0 s.submissionDate with hmx | hmx
            · right
              rw [newTs, hmx] at hval
              rw [hval]
            · left
              rw [newTs, hmx] at hval
              rw [← hval]
              exact List.mem_cons_self _ _
    · rw [if_neg hc] at h
      rw [refTimestamps, if_neg hc]
      exact ih o m h

theorem nodup_insertWorkflow (s : SubmissionRec) (d : List (String × EntityRecord))
    (w : WorkflowRec) (h : (d.map Prod.fst).Nodup) :
    ((insertWorkflow s d w).map Prod.fst).Nodup := by
  cases hl : alookup w.entityName d with
  | none =>
    simp only [insertWorkflow, hl]
    exact nodup_keys_aset d _ _ h
  | some r =>
    by_cases hlt : r.timestamp < s.submissionDate
    · simp only [insertWorkflow, hl, if_pos hlt]
      exact nodup_keys_aset d _ _ h
    · simp only [insertWorkflow, hl, if_neg hlt]
      exact h

theorem nodup_foldl_insert (s : SubmissionRec) (ws : List WorkflowRec) :
    ∀ (d : List (String × EntityRecord)), (d.map Prod.fst).Nodup →
    (((ws.foldl (insertWorkflow s) d)).map Prod.fst).Nodup := by
  induction ws with
  | nil => intro d h; simpa using h
  | cons w ws ih =>
    intro d h
    simp only [List.foldl_cons]
    exact ih _ (nodup_insertWorkflow s d w h)

theorem nodup_statusFold (etype : String) (subs : List SubmissionRec) :
    ∀ (d d1 : List (String × EntityRecord)), (d.map Prod.fst).Nodup →
      statusFold etype d subs = Except.ok d1 → (d1.map Prod.fst).Nodup := by
  induction subs with
  | nil =>
    intro d d1 h hf
    cases hf
    exact h
  | cons s rest ih =>
    intro d d1 h hf
    rw [statusFold] at hf
    cases hp : processSubmission etype d s with
    | error err => rw [hp] at hf; cases hf
    | ok dmid =>
      rw [hp] at hf
      apply ih dmid d1 _ hf
      by_cases ht : s.entityType = etype
      · rw [processSubmission, if_neg (by simp [ht])] at hp
        cases hd : s.detail with
        | error err => rw [hd] at hp; cases hp
        | ok ws =>
          rw [hd] at hp
          cases hp
          exact nodup_foldl_insert s ws d h
      · rw [processSubmission, if_pos ht] at hp
        cases hp
        exact h

--------------------------------------------------------------------------
-- Claims C3, C5, C8: Status Aggregator
--------------------------------------------------------------------------

/-- C3: for every submission list and every entity id referenced by at
least one type-matching submission, get_entity_status returns exactly one
record for that entity id (the key list of the result has no duplicates and
lookup yields a record), its timestamp is the maximum submission timestamp
among all type-matching submissions referencing the entity, and during the
scan an existing record is replaced only when the new submission timestamp
is strictly greater (a non-greater timestamp leaves the dictionary
unchanged). -/
theorem claimC3 (etype e : String) (subs : List SubmissionRec)
    (d : List (String × EntityRecord))
    (hok : get_entity_status etype subs = Except.ok d)
    (href : ∃ s ∈ subs, (matchesB etype s && referencesEntity s e) = true) :
    (d.map Prod.fst).Nodup
    ∧ (∃ r : EntityRecord, alookup e d = some r
        ∧ r.timestamp ∈ refTimestamps etype e subs
        ∧ ∀ t ∈ refTimestamps etype e subs, t ≤ r.timestamp)
    ∧ (∀ (d0 : List (String × EntityRecord)) (r0 : EntityRecord) (s : SubmissionRec)
          (w : WorkflowRec), alookup w.entityName d0 = some r0 →
          ¬ r0.timestamp < s.submissionDate → insertWorkflow s d0 w = d0) := by
  have hfold : statusFold etype [] subs = Except.ok d := hok
  refine ⟨nodup_statusFold etype subs [] d (by simp) hfold, ?_, ?_⟩
  · have hts : tsOf d e = accTs etype e none subs := tsOf_statusFold etype subs [] d e hfold
    have hsome : (accTs etype e none subs).isSome := accTs_isSome etype e subs none href
    rw [← hts] at hsome
    rcases Option.isSome_iff_exists.mp hsome with ⟨m, hm⟩
    have hspec := accTs_spec etype e subs none m (by rw [← hts]; exact hm)
    have hmem : m ∈ refTimestamps etype e subs := by
      rcases hspec.2 with hmem | hcontra
      · exact hmem
      · cases hcontra
    rcases Option.map_eq_some'.mp hm with ⟨r, hr, hrts⟩
    exact ⟨r, hr, by rw [hrts]; exact hmem, fun t htm => by rw [hrts]; exact hspec.1 t htm⟩
  · intro d0 r0 s w hl hlt
    simp only [insertWorkflow, hl, if_neg hlt]

/-- C3 witness: for the two submissions subC3a (timestamp 5) and subC3b
(timestamp 9), both referencing entity E, the returned record for E carries
the maximum timestamp among them. -/
theorem claimC3_witness :
    ∃ r : EntityRecord, alookup "E" dictC3 = some r
      ∧ r.timestamp ∈ refTimestamps "sample" "E" [subC3a, subC3b]
      ∧ ∀ t ∈ refTimestamps "sample" "E" [subC3a, subC3b], t ≤ r.timestamp :=
  (claimC3 "sample" "E" [subC3a, subC3b] dictC3 rfl
    ⟨subC3b, List.Mem.tail _ (List.Mem.head _), rfl⟩).2.1

/-- C5 counterexample: subC5a and subC5b reference the same entity E with
equal timestamps; get_entity_status keeps the record of subC5a, the
submission processed first, not of subC5b, the one processed last. -/
theorem claimC5_counterexample :
    get_entity_status "sample" [subC5a, subC5b] = Except.ok [("E", recC5)]
    ∧ recC5.submission_id = subC5a.submissionId
    ∧ recC5.submission_id ≠ subC5b.submissionId
    ∧ recC5.status = "Failed" ∧ wC5b.status = "Succeeded" := by
  refine ⟨rfl, rfl, ?_, rfl, rfl⟩
  decide

/-- C5 amended: when two submissions referencing the same entity id carry
equal submission timestamps, get_entity_status keeps the record of the
submission processed first (replacement requires a strictly greater
timestamp, so the later-processed equal-timestamp submission is ignored). -/
theorem claimC5_amended (etype e : String) (s1 s2 : SubmissionRec) (w1 w2 : WorkflowRec)
    (h1 : s1.entityType = etype) (h2 : s2.entityType = etype)
    (hd1 : s1.detail = Except.ok [w1]) (hd2 : s2.detail = Except.ok [w2])
    (he1 : w1.entityName = e) (he2 : w2.entityName = e)
    (hts : s1.submissionDate = s2.submissionDate) :
    get_entity_status etype [s1, s2] = Except.ok [(e, recordFor s1 w1)] := by
  have hp1 : processSubmission etype [] s1 = Except.ok [(e, recordFor s1 w1)] := by
    rw [processSubmission, if_neg (by simp [h1]), hd1]
    simp [insertWorkflow, alookup, aset, he1]
  have hp2 : processSubmission etype [(e, recordFor s1 w1)] s2
      = Except.ok [(e, recordFor s1 w1)] := by
    rw [processSubmission, if_neg (by simp [h2]), hd2]
    simp [insertWorkflow, alookup, he2, recordFor, hts]
  show statusFold etype [] [s1, s2] = Except.ok [(e, recordFor s1 w1)]
  rw [statusFold, hp1]
  show statusFold etype [(e, recordFor s1 w1)] [s2] = Except.ok [(e, recordFor s1 w1)]
  rw [statusFold, hp2]
  rfl

/-- C5 witness: the amended tie-break rule instantiated at the concrete
equal-timestamp submissions subC5a and subC5b. -/
theorem claimC5_witness :
    get_entity_status "sample" [subC5a, subC5b] = Except.ok [("E", recordFor subC5a wC5a)] :=
  claimC5_amended "sample" "E" subC5a subC5b wC5a wC5b rfl rfl rfl rfl rfl rfl rfl

theorem statusFold_error (etype : String) (subs : List SubmissionRec) :
    ∀ d : List (String × EntityRecord),
    (∃ s ∈ subs, s.entityType = etype ∧ s.detail = Except.error ()) →
    statusFold etype d subs = Except.error () := by
  induction subs with
  | nil => intro d h; simp at h
  | cons s rest ih =>
    intro d h
    cases hp : processSubmission etype d s with
    | error err =>
      cases err
      rw [statusFold, hp]
    | ok dmid =>
      rw [statusFold, hp]
      apply ih
      rcases h with ⟨s0, hmem, hty, hdet⟩
      rcases List.mem_cons.mp hmem with rfl | hmem'
      · exfalso
        rw [processSubmission, if_neg (by simp [hty]), hdet] at hp
        cases hp
      · exact ⟨s0, hmem', hty, hdet⟩

/-- C8: if the submission-detail fetch of any type-matching submission
fails, get_entity_status aborts with an error and returns no mapping at
all. -/
theorem claimC8 (etype : String) (subs : List SubmissionRec)
    (h : ∃ s ∈ subs, s.entityType = etype ∧ s.detail = Except.error ()) :
    get_entity_status etype subs = Except.error () :=
  statusFold_error etype subs [] h

/-- C8 witness: a list holding one healthy submission and one whose detail
fetch failed aborts as a whole. -/
theorem claimC8_witness :
    get_entity_status "sample" [subC3a, subC8bad] = Except.error () :=
  claimC8 "sample" [subC3a, subC8bad]
    ⟨subC8bad, List.Mem.tail _ (List.Mem.head _), rfl, rfl⟩

--------------------------------------------------------------------------
-- Claims C1, C2, C7, C10: Execution Statistics Engine
--------------------------------------------------------------------------

theorem sum_map_sub {α : Type} (l : List α) (f g : α → ℚ) :
    (l.map (fun x => f x - g x)).sum = (l.map f).sum - (l.map g).sum := by
  induction l with
  | nil => simp
  | cons a t ih =>
    simp only [List.map_cons, List.sum_cons, ih]
    ring

/-- C1 counterexample: three attempts for the same shard index 0, at
positions p1, p2, p3.  The successes table maps index 0 to the attempt at
p3, not the one at p1: shard resolution accepts the last attempt for an
index, refuting the claim that the accepted attempt is p1.  The preemption
list is the attempts at p2 and p3, as the claim states. -/
theorem claimC1_counterexample :
    (resolveAttempts [catt1, catt2, catt3]).1 = [(0, catt3)]
    ∧ (resolveAttempts [catt1, catt2, catt3]).2 = [catt2, catt3]
    ∧ catt3 ≠ catt1 := by
  refine ⟨rfl, rfl, ?_⟩
  decide

theorem preemptList_congr :
    ∀ (t : List CallAttempt) (s1 s2 : List Int),
    (∀ x : Int, x ∈ s1 ↔ x ∈ s2) → preemptList s1 t = preemptList s2 t := by
  intro t
  induction t with
  | nil => intro s1 s2 _; rfl
  | cons a t ih =>
    intro s1 s2 h
    rw [preemptList, preemptList]
    congr 1
    · exact if_congr (h _) rfl rfl
    · apply ih
      intro x
      simp [List.mem_cons, h x]

theorem foldl_shardStep_pre :
    ∀ (t : List CallAttempt) (d : List (Int × CallAttempt)) (p : List CallAttempt),
    ((t.foldl shardStep (d, p)).2) = p ++ preemptList (d.map Prod.fst) t := by
  intro t
  induction t with
  | nil =>
    intro d p
    simp [preemptList]
  | cons a t ih =>
    intro d p
    rw [List.foldl_cons]
    have hstep : shardStep (d, p) a
        = (aset d (a.shardIndex.getD 0) a,
           if (alookup (a.shardIndex.getD 0) d).isSome then p ++ [a] else p) := rfl
    rw [hstep, ih]
    have hseen : preemptList ((aset d (a.shardIndex.getD 0) a).map Prod.fst) t
        = preemptList (a.shardIndex.getD 0 :: d.map Prod.fst) t := by
      apply preemptList_congr
      intro x
      constructor
      · intro hx
        rcases mem_keys_aset d (a.shardIndex.getD 0) a x hx with hm | he
        · exact List.mem_cons_of_mem _ hm
        · rw [he]; exact List.mem_cons_self _ _
      · intro hx
        rcases List.mem_cons.mp hx with heq | hm
        · exact mem_keys_aset_of d _ x a (Or.inr heq)
        · exact mem_keys_aset_of d _ x a (Or.inl hm)
    rw [hseen, preemptList]
    by_cases hsk : (alookup (a.shardIndex.getD 0) d).isSome
    · have hmem : a.shardIndex.getD 0 ∈ d.map Prod.fst := (alookup_isSome_iff d _).mp hsk
      rw [if_pos hsk, if_pos hmem]
      simp
    · have hmem : a.shardIndex.getD 0 ∉ d.map Prod.fst :=
        fun hm => hsk ((alookup_isSome_iff d _).mpr hm)
      rw [if_neg hsk, if_neg hmem]
      simp

theorem getLast_opt_cons {γ : Type} (a : γ) (l : List γ) :
    (a :: l).getLast? = match l.getLast? with
      | some b => some b
      | none => some a := by
  induction l generalizing a with
  | nil => rfl
  | cons b t ih =>
    rw [List.getLast?_cons_cons, ih b]
    cases h : t.getLast? with
    | some c => rfl
    | none => rfl

theorem foldl_shardStep_acc :
    ∀ (t : List CallAttempt) (d : List (Int × CallAttempt)) (p : List CallAttempt) (k : Int),
    alookup k ((t.foldl shardStep (d, p)).1)
      = match (t.filter (fun a => a.shardIndex.getD 0 == k)).getLast? with
        | some b => some b
        | none => alookup k d := by
  intro t
  induction t with
  | nil => intro d p k; rfl
  | cons a t ih =>
    intro d p k
    rw [List.foldl_cons]
    have hstep : shardStep (d, p) a
        = (aset d (a.shardIndex.getD 0) a,
           if (alookup (a.shardIndex.getD 0) d).isSome then p ++ [a] else p) := rfl
    rw [hstep, ih]
    by_cases hk : a.shardIndex.getD 0 = k
    · have hb : (a.shardIndex.getD 0 == k) = true := by simpa using hk
      rw [List.filter_cons, if_pos hb, getLast_opt_cons]
      cases hgl : (t.filter fun x => x.shardIndex.getD 0 == k).getLast? with
      | some b => rfl
      | none => rw [alookup_aset, if_pos hk]
    · have hb : (a.shardIndex.getD 0 == k) = false := by simpa using hk
      rw [List.filter_cons, if_neg (by simp [hb])]
      cases hgl : (t.filter fun x => x.shardIndex.getD 0 == k).getLast? with
      | some b => rfl
      | none => rw [alookup_aset, if_neg hk]

theorem preemptList_mem :
    ∀ (t : List CallAttempt) (seen : List Int) (k : Int),
    ((k ∈ seen → ∀ a ∈ t.filter (fun x => x.shardIndex.getD 0 == k), a ∈ preemptList seen t)
      ∧ (k ∉ seen → ∀ a ∈ (t.filter (fun x => x.shardIndex.getD 0 == k)).drop 1,
          a ∈ preemptList seen t)) := by
  intro t
  induction t with
  | nil =>
    intro seen k
    constructor
    · intro _ a ha; simp at ha
    · intro _ a ha; simp at ha
  | cons b t ih =>
    intro seen k
    by_cases hk : b.shardIndex.getD 0 = k
    · have hb : (b.shardIndex.getD 0 == k) = true := by simpa using hk
      constructor
      · intro hks a ha
        rw [List.filter_cons, if_pos hb] at ha
        rw [preemptList]
        rcases List.mem_cons.mp ha with heq | ha'
        · have hin : b.shardIndex.getD 0 ∈ seen := by rw [hk]; exact hks
          rw [if_pos hin, heq]
          exact List.mem_append.mpr (Or.inl (List.mem_cons_self _ _))
        · have hmem := (ih (b.shardIndex.getD 0 :: seen) k).1
            (by rw [hk]; exact List.mem_cons_self _ _) a ha'
          exact List.mem_append.mpr (Or.inr hmem)
      · intro hks a ha
        rw [List.filter_cons, if_pos hb, List.drop_succ_cons, List.drop_zero] at ha
        have hmem := (ih (b.shardIndex.getD 0 :: seen) k).1
          (by rw [hk]; exact List.mem_cons_self _ _) a ha
        rw [preemptList]
        exact List.mem_append.mpr (Or.inr hmem)
    · have hb : (b.shardIndex.getD 0 == k) = false := by simpa using hk
      have hfil : (b :: t).filter (fun x => x.shardIndex.getD 0 == k)
          = t.filter (fun x => x.shardIndex.getD 0 == k) := by
        rw [List.filter_cons, if_neg (by simp [hb])]
      constructor
      · intro hks a ha
        rw [hfil] at ha
        have hmem := (ih (b.shardIndex.getD 0 :: seen) k).1 (List.mem_cons_of_mem _ hks) a ha
        rw [preemptList]
        exact List.mem_append.mpr (Or.inr hmem)
      · intro hks a ha
        rw [hfil] at ha
        have hks' : k ∉ b.shardIndex.getD 0 :: seen := by
          intro hc
          rcases List.mem_cons.mp hc with heq | hm
          · exact hk heq.symm
          · exact hks hm
        have hmem := (ih (b.shardIndex.getD 0 :: seen) k).2 hks' a ha
        rw [preemptList]
        exact List.mem_append.mpr (Or.inr hmem)

theorem foldl_max_spec :
    ∀ (t : List ℚ) (a : ℚ),
    (t.foldl max a = a ∨ t.foldl max a ∈ t)
      ∧ a ≤ t.foldl max a ∧ ∀ y ∈ t, y ≤ t.foldl max a := by
  intro t
  induction t with
  | nil =>
    intro a
    refine ⟨Or.inl rfl, le_refl a, ?_⟩
    intro y hy
    simp at hy
  | cons b t ih =>
    intro a
    rw [List.foldl_cons]
    obtain ⟨hmem, hle, hbound⟩ := ih (max a b)
    refine ⟨?_, le_trans (le_max_left a b) hle, ?_⟩
    · rcases hmem with heq | hmem
      · rcases max_choice a b with hab | hab
        · left; rw [heq, hab]
        · right; rw [heq, hab]; exact List.mem_cons_self _ _
      · right; exact List.mem_cons_of_mem _ hmem
    · intro y hy
      rcases List.mem_cons.mp hy with heq | hy'
      · rw [heq]; exact le_trans (le_max_right a b) hle
      · exact hbound y hy'

theorem listMax_spec (l : List ℚ) (x : ℚ) (h : listMax l = some x) :
    x ∈ l ∧ ∀ y ∈ l, y ≤ x := by
  cases l with
  | nil => cases h
  | cons a t =>
    rw [listMax] at h
    have hx : t.foldl max a = x := by injection h
    obtain ⟨hmem, hle, hbound⟩ := foldl_max_spec t a
    rw [hx] at hmem hle hbound
    constructor
    · rcases hmem with heq | hmem
      · rw [← heq]; exact List.mem_cons_self _ _
      · exact List.mem_cons_of_mem _ hmem
    · intro y hy
      rcases List.mem_cons.mp hy with rfl | hy'
      · exact hle
      · exact hbound y hy'

/-- C1 amended: for every scattered task (every attempt carrying a shard
index), shard resolution accepts, for each shard index k, the LAST attempt
observed with index k: the successes entry for k is the last element of
the index-k subsequence of the attempt list, whatever its position among
other attempts and indices (line 726 overwrites the entry on every
attempt).  The preemption list is exactly the attempts whose index was
already seen on an earlier attempt, in order.  In particular, when the
index-k attempts appear at positions p1 < p2 < p3, the accepted attempt is
the one at p3 and the attempts at p2 and p3 are preemptions; and for an
uncached task with preemptible first attempt and at least one preemption,
max_preempt_time_h equals the maximum duration among the preemption
attempts. -/
theorem claimC1_amended (rate : String → Bool → ℚ) (a0 : CallAttempt)
    (rest : List CallAttempt)
    (hAll : ∀ a ∈ a0 :: rest, (a.shardIndex).isSome) :
    (∀ k : Int, alookup k (resolveAttempts (a0 :: rest)).1
        = ((a0 :: rest).filter (fun a => a.shardIndex == some k)).getLast?)
    ∧ (resolveAttempts (a0 :: rest)).2 = preemptList [] (a0 :: rest)
    ∧ (∀ (k : Int) (b1 b2 b3 : CallAttempt),
        (a0 :: rest).filter (fun a => a.shardIndex == some k) = [b1, b2, b3] →
        alookup k (resolveAttempts (a0 :: rest)).1 = some b3
        ∧ b2 ∈ (resolveAttempts (a0 :: rest)).2
        ∧ b3 ∈ (resolveAttempts (a0 :: rest)).2)
    ∧ (cacheHit (a0 :: rest) = false → a0.preemptible = true →
        (resolveAttempts (a0 :: rest)).2 ≠ [] →
        ∃ (s : TaskStats) (M : ℚ), taskStats rate (a0 :: rest) = Except.ok s
          ∧ s.max_preempt_time_h = some (M / 3600)
          ∧ M ∈ ((resolveAttempts (a0 :: rest)).2).map (fun a => (workflow_time a : ℚ))
          ∧ ∀ y ∈ ((resolveAttempts (a0 :: rest)).2).map (fun a => (workflow_time a : ℚ)),
              y ≤ M) := by
  have ha0 : (a0.shardIndex).isSome := hAll a0 (List.mem_cons_self a0 rest)
  have hres : resolveAttempts (a0 :: rest) = (a0 :: rest).foldl shardStep ([], []) := by
    rw [resolveAttempts, if_pos ha0]
  have hfilter : ∀ k : Int, (a0 :: rest).filter (fun a => a.shardIndex == some k)
      = (a0 :: rest).filter (fun a => a.shardIndex.getD 0 == k) := by
    intro k
    apply List.filter_congr
    intro a ha
    rcases Option.isSome_iff_exists.mp (hAll a ha) with ⟨v, hv⟩
    rw [hv]
    rfl
  have hacc : ∀ k : Int, alookup k (resolveAttempts (a0 :: rest)).1
      = ((a0 :: rest).filter (fun a => a.shardIndex.getD 0 == k)).getLast? := by
    intro k
    rw [hres, foldl_shardStep_acc]
    cases hgl : ((a0 :: rest).filter (fun a => a.shardIndex.getD 0 == k)).getLast? with
    | some b => rfl
    | none => rfl
  have hpre : (resolveAttempts (a0 :: rest)).2 = preemptList [] (a0 :: rest) := by
    rw [hres, foldl_shardStep_pre]
    simp
  refine ⟨fun k => by rw [hfilter k]; exact hacc k, hpre, ?_, ?_⟩
  · intro k b1 b2 b3 hfil
    rw [hfilter k] at hfil
    refine ⟨by rw [hacc k, hfil]; rfl, ?_, ?_⟩
    · rw [hpre]
      refine (preemptList_mem (a0 :: rest) [] k).2 (by simp) b2 ?_
      rw [hfil]
      simp
    · rw [hpre]
      refine (preemptList_mem (a0 :: rest) [] k).2 (by simp) b3 ?_
      rw [hfil]
      simp
  · intro hhit hp hpne
    obtain ⟨q, qs, hq⟩ : ∃ q qs, (resolveAttempts (a0 :: rest)).2 = q :: qs := by
      cases hqq : (resolveAttempts (a0 :: rest)).2 with
      | nil => exact absurd hqq hpne
      | cons q qs => exact ⟨q, qs, rfl⟩
    have hisE : ((resolveAttempts (a0 :: rest)).2).isEmpty = false := by
      rw [hq]; rfl
    have hstats : taskStats rate (a0 :: rest)
        = Except.ok (fullStats rate (a0 :: rest) a0) := by
      simp [taskStats, hhit, hisE, hp]
    have hlm : listMax (((resolveAttempts (a0 :: rest)).2).map
          (fun a => (workflow_time a : ℚ)))
        = some ((qs.map (fun a => (workflow_time a : ℚ))).foldl max
            ((workflow_time q : ℚ))) := by
      rw [hq]
      rfl
    have hspec := listMax_spec _ _ hlm
    refine ⟨fullStats rate (a0 :: rest) a0,
      (qs.map (fun a => (workflow_time a : ℚ))).foldl max ((workflow_time q : ℚ)),
      hstats, ?_, hspec.1, hspec.2⟩
    simp [fullStats, hisE, hlm]

/-- C1 witness: the amended rule instantiated at the three concrete
same-shard attempts catt1, catt2, catt3: the index-0 subsequence is the
whole list, the accepted attempt for shard index 0 is catt3, the last, and
catt2 and catt3 are the preemptions. -/
theorem claimC1_witness :
    alookup 0 (resolveAttempts [catt1, catt2, catt3]).1 = some catt3
    ∧ catt2 ∈ (resolveAttempts [catt1, catt2, catt3]).2
    ∧ catt3 ∈ (resolveAttempts [catt1, catt2, catt3]).2 :=
  (claimC1_amended rate0 catt1 [catt2, catt3] (by decide)).2.2.1 0 catt1 catt2 catt3 rfl

/-- C2 counterexample: the single-attempt task attHit hit the call cache
and ran for one hour.  Its row contributes nothing to est_cost (the column
is unset) but contributes 1 to the cpu_hours aggregate, refuting the claim
that a cache-hit task contributes nothing to cpu_hours. -/
theorem claimC2_counterexample :
    taskStats rate0 [attHit] = Except.ok hitStats
    ∧ hitStats.est_cost = none
    ∧ cpu_hours_agg [hitStats] = 1
    ∧ (1 : ℚ) ≠ 0 := by
  refine ⟨?_, rfl, ?_, by norm_num⟩
  · simp [taskStats, cacheHit, attHit, cachedStats, hitStats, time_h, total_time_h,
      resolveAttempts, durH, quotaH, workflow_time, quotaEvents]
  · norm_num [cpu_hours_agg, hitStats, coreCount]

/-- C2 amended: a task with any cache-hit attempt contributes nothing to
the workflow est_cost aggregate (its est_cost and machine_type columns stay
unset and the aggregate skips unset entries), but it still contributes its
total_time_h, at the one-core default used for an unset machine type, to
the cpu_hours aggregate. -/
theorem claimC2_amended (rate : String → Bool → ℚ) (attempts : List CallAttempt)
    (s : TaskStats) (rest : List TaskStats)
    (hhit : cacheHit attempts = true)
    (hs : taskStats rate attempts = Except.ok s) :
    s.est_cost = none
    ∧ s.machine_type = none
    ∧ est_cost_agg (s :: rest) = est_cost_agg rest
    ∧ cpu_hours_agg (s :: rest) = total_time_h attempts + cpu_hours_agg rest := by
  cases attempts with
  | nil => simp [cacheHit] at hhit
  | cons a0 r0 =>
    rw [taskStats, if_pos hhit] at hs
    cases hs
    refine ⟨rfl, rfl, ?_, ?_⟩
    · simp [est_cost_agg, cachedStats]
    · simp [cpu_hours_agg, cachedStats, coreCount]

/-- C2 witness: the amended cache-hit rule instantiated at attHit, whose
row is hitStats: excluded from est_cost, yet adding its total hour to the
cpu_hours aggregate. -/
theorem claimC2_witness :
    hitStats.est_cost = none
    ∧ hitStats.machine_type = none
    ∧ est_cost_agg [hitStats] = est_cost_agg []
    ∧ cpu_hours_agg [hitStats] = total_time_h [attHit] + cpu_hours_agg [] :=
  claimC2_amended rate0 [attHit] hitStats [] rfl
    (by simp [taskStats, cacheHit, attHit, cachedStats, hitStats, time_h, total_time_h,
      resolveAttempts, durH, quotaH, workflow_time, quotaEvents])

/-- C7: every accepted attempt contributes its wall-clock hours minus its
quota-wait hours to time_h; the quota-wait total subtracted from time_h is
the same one subtracted from total_time_h; and the concrete accepted
attempt attQ of two wall-clock hours with one half-hour quota-wait event
contributes one and a half hours. -/
theorem claimC7 (attempts : List CallAttempt) :
    time_h attempts
      = (((resolveAttempts attempts).1).map (fun p => durH p.2 - quotaH p.2)).sum
    ∧ (((resolveAttempts attempts).1).map (fun p => durH p.2)).sum - time_h attempts
      = (attempts.map durH).sum - total_time_h attempts
    ∧ durH attQ - quotaH attQ = 3 / 2 := by
  refine ⟨?_, ?_, ?_⟩
  · rw [sum_map_sub]
    rfl
  · rw [time_h, total_time_h]
    ring
  · norm_num [durH, quotaH, attQ, workflow_time, quotaEvents]

/-- C10: a task not excluded by a cache hit, with at least one preemption
attempt and a non-preemptible first attempt, makes the computation abort
(the assertion at line 745 fails); hence no statistics row is ever returned
for such a task. -/
theorem claimC10 (rate : String → Bool → ℚ) (a0 : CallAttempt) (rest : List CallAttempt)
    (hhit : cacheHit (a0 :: rest) = false)
    (hpre : ((resolveAttempts (a0 :: rest)).2).isEmpty = false)
    (hflag : a0.preemptible = false) :
    taskStats rate (a0 :: rest) = Except.error ()
    ∧ ∀ s : TaskStats, taskStats rate (a0 :: rest) ≠ Except.ok s := by
  have h : taskStats rate (a0 :: rest) = Except.error () := by
    simp [taskStats, hhit, hpre, hflag]
  exact ⟨h, fun s hs => by rw [h] at hs; cases hs⟩

/-- C10 witness: the uncached attempts pAtt0, pAtt1 share shard index 0, so
pAtt1 is a preemption, and pAtt0 is not preemptible: the computation
aborts. -/
theorem claimC10_witness :
    taskStats rate0 [pAtt0, pAtt1] = Except.error () :=
  (claimC10 rate0 pAtt0 [pAtt1] rfl rfl rfl).1

--------------------------------------------------------------------------
-- Claim C9: the metadata retry loop
--------------------------------------------------------------------------

theorem retryLoop_none {α : Type} (results : Nat → Option α) :
    ∀ (fuel start : Nat), retryLoopFrom results start fuel = none := by
  intro fuel
  induction fuel with
  | zero => intro start; rfl
  | succ f ih =>
    intro start
    rw [retryLoopFrom]
    cases hr : results start with
    | some _ => exact ih (start + 1)
    | none => exact ih (start + 1)

/-- C9: the metadata-fetch retry loop of get_stats never terminates: for
every outcome sequence of the remote calls, every start index and every
fuel bound the loop returns no metadata, in particular for the sequence
results0 whose third call succeeds.  The loop exit at line 687 is
unreachable because line 686 evaluates metadata.json() on the dict that
get_workflow_metadata already returned, which raises on every iteration
and is swallowed by the bare except, so the claimed
terminates-when-a-retry-succeeds behavior does not hold of the code. -/
theorem claimC9 {α : Type} (results : Nat → Option α) (start fuel : Nat) :
    retryLoopFrom results start fuel = none
    ∧ retryLoopFrom results0 0 fuel = none :=
  ⟨retryLoop_none results fuel start, retryLoop_none results0 fuel 0⟩

--------------------------------------------------------------------------
-- Claims C4, C6: Attribute Reconciler
--------------------------------------------------------------------------

/-- C4: evaluation of the patch loop at a batch whose second entity has a
failing metadata fetch.  The batch aborts with an error: the third entity
is never processed, because the bare except handler itself raises when it
evaluates metadata.json() on a dict (or on an unbound name).  Dropping the
failing entity from the batch shows what the claim expected to survive:
both remaining entities are patched and counted. -/
theorem claimC4 :
    patchFetchLoop outputMap0 false state0 ([], []) [taskS1, taskS2, taskS3]
      = Except.error ()
    ∧ patchFetchLoop outputMap0 false state0 ([], []) [taskS1, taskS3]
        = Except.ok ([⟨"s1", [("attr1", "v")]⟩, ⟨"s3", [("attr1", "v")]⟩],
            [lastComponent "wf.TaskA", lastComponent "wf.TaskA"]) :=
  ⟨rfl, rfl⟩

theorem patchCallStep_dry_writes (outputMap : List (String × String))
    (row : String → Option String) (sid : String)
    (acc : List WriteOp × List String) (c : String × List CallOutputs) :
    (patchCallStep outputMap true row sid acc c).1 = acc.1 := by
  cases hl : (c.2).getLast? with
  | none => simp [patchCallStep, hl]
  | some last =>
    cases ho : last.outputs with
    | none => simp [patchCallStep, hl, ho]
    | some outs =>
      simp only [patchCallStep, hl, ho]
      split_ifs <;> rfl

theorem foldl_patchCallStep_fst (outputMap : List (String × String))
    (row : String → Option String) (sid : String)
    (calls : List (String × List CallOutputs)) :
    ∀ acc : List WriteOp × List String,
      (calls.foldl (patchCallStep outputMap true row sid) acc).1 = acc.1 := by
  induction calls with
  | nil => intro acc; rfl
  | cons c t ih =>
    intro acc
    rw [List.foldl_cons, ih, patchCallStep_dry_writes]

theorem patchEntity_dry_writes (outputMap : List (String × String))
    (row : String → Option String) (sid : String) (m : WorkflowMeta) :
    (patchEntity outputMap true row sid m).1 = [] := by
  rw [patchEntity, if_neg (by simp)]
  exact foldl_patchCallStep_fst outputMap row sid m.calls ([], [])

theorem patchRun_dry_writes (outputMap : List (String × String))
    (state : String → String → Option String)
    (samples : List (String × WorkflowMeta)) :
    (patchRun outputMap true state samples).1 = [] := by
  induction samples with
  | nil => rfl
  | cons e t ih =>
    simp [patchRun, patchEntity_dry_writes, ih]

/-- C6: a dry run of the patch loop issues no attribute writes, so the
remote entity state is unchanged, and a second dry run over the state left
behind by the first (that is, the same state) reports the same writes and
the same per-task candidate counts. -/
theorem claimC6 (outputMap : List (String × String))
    (state : String → String → Option String)
    (samples : List (String × WorkflowMeta)) :
    (patchRun outputMap true state samples).1 = []
    ∧ patchRun outputMap true
        (applyWrites state (patchRun outputMap true state samples).1) samples
      = patchRun outputMap true state samples := by
  refine ⟨patchRun_dry_writes outputMap state samples, ?_⟩
  rw [patchRun_dry_writes]
  rfl

end Dalmatian
